import Mathlib

/-!
Verification development for the segmented voice-conversion pipeline of
`src/src/vc_infer_pipeline.py` (class `VC`, helpers `change_rms` and
`cache_harvest_f0`).

The pipeline's pure numeric logic is embedded shallowly:

* feature vectors are functions `ℕ → ℚ` (one rational per coordinate);
* external collaborators (the faiss index search, pyworld harvest, the
  neural extractor/generator, librosa RMS, the scipy filter kernel) are
  abstracted as function parameters, exactly at the call boundary where
  the Python code invokes them;
* floating point is modelled by exact arithmetic (`ℚ` where the code is
  finite arithmetic, `ℝ` where it uses `log`/`pow` with real exponents);
* the mutable harvest cache is modelled by explicit state passing;
* the scipy `filtfilt` failure mode is modelled with `Except`.
-/

namespace AICover

/-- A feature vector (one row of a feature matrix): coordinate-indexed rationals. -/
abbrev Vec := ℕ → ℚ

/-! ### FeatureIndex retrieval (`VC.vc`, lines 409-431)

`score, ix = index.search(npy, k=8)` is the opaque faiss call; we record its
per-row output. -/

/-- Result of `index.search(row, k=8)` for one query row: eight distances
(`score`) and eight reference row ids (`ix`). -/
structure SearchHit where
  score : Fin 8 → ℚ
  ix : Fin 8 → ℕ

/-- Line 422, `weight = np.square(1 / score)`: the unnormalized weight of each
of the 8 hits. -/
def weightRaw (h : SearchHit) (i : Fin 8) : ℚ := (1 / h.score i) ^ 2

/-- Line 423 denominator, `weight.sum(axis=1, keepdims=True)`. -/
def weightSum (h : SearchHit) : ℚ := ∑ i, weightRaw h i

/-- Line 423, `weight /= weight.sum(...)`: normalized weights. -/
def weightNorm (h : SearchHit) (i : Fin 8) : ℚ := weightRaw h i / weightSum h

/-- Line 424, `npy = np.sum(big_npy[ix] * np.expand_dims(weight, axis=2), axis=1)`:
the weighted average of the eight retrieved reference vectors. -/
def retrievedRow (bigNpy : ℕ → Vec) (h : SearchHit) : Vec :=
  fun c => ∑ i, bigNpy (h.ix i) c * weightNorm h i

/-- Lines 428-431, `feats = torch.from_numpy(npy) * index_rate + (1 - index_rate) * feats`:
one output row of the retrieval blend. -/
def blendRow (bigNpy : ℕ → Vec) (h : SearchHit) (rate : ℚ) (q : Vec) : Vec :=
  fun c => retrievedRow bigNpy h c * rate + (1 - rate) * q c

/-- The whole retrieval step applied to every row of the query feature matrix
(`search` is the opaque `index.search`). -/
def vcRetrieve (search : Vec → SearchHit) (bigNpy : ℕ → Vec) (rate : ℚ)
    (feats : List Vec) : List Vec :=
  feats.map (fun q => blendRow bigNpy (search q) rate q)

/-- Spec-side formula (§4.2): weights `1/distance²` normalized to sum to 1. -/
def specWeight (h : SearchHit) (i : Fin 8) : ℚ :=
  (1 / h.score i ^ 2) / ∑ j, 1 / h.score j ^ 2

/-- Spec-side formula (§4.2): each output vector is
`r · (weighted average of the k=8 nearest reference vectors) + (1−r) · query`. -/
def specBlendRow (bigNpy : ℕ → Vec) (h : SearchHit) (rate : ℚ) (q : Vec) : Vec :=
  fun c => rate * (∑ i, specWeight h i * bigNpy (h.ix i) c) + (1 - rate) * q c

/-! ### Index loading and the retrieval gate (`VC.pipeline` lines 497-512,
`VC.vc` lines 409-413) -/

/-- The data the pipeline obtains from a successfully read index file:
the opaque search structure plus `big_npy = index.reconstruct_n(0, index.ntotal)`. -/
structure FaissIndex where
  search : Vec → SearchHit
  bigNpy : ℕ → Vec

/-- Lines 497-512: the index is read only when the path is nonempty, the file
exists and `index_rate != 0`; a read/reconstruct exception (modelled by
`readResult = none`) is caught and degrades to `index = big_npy = None`. -/
def loadIndex (fileIndex : String) (fileExists : Bool) (indexRate : ℚ)
    (readResult : Option FaissIndex) : Option FaissIndex :=
  if fileIndex ≠ "" ∧ fileExists = true ∧ indexRate ≠ 0 then readResult else none

/-- Lines 409-431 as one step: the blend runs only when an index (and its
reconstructed matrix) is present and `index_rate != 0`; otherwise the feature
matrix passes through unchanged. -/
def vcFeatureStep (idx : Option FaissIndex) (rate : ℚ) (feats : List Vec) : List Vec :=
  match idx with
  | some i => if rate ≠ 0 then vcRetrieve i.search i.bigNpy rate feats else feats
  | none => feats

/-! ### Pitch-protection blending (`VC.vc` lines 446-452) -/

/-- Lines 447-449 for one frame: `pitchff = pitchf.clone()`, then
`pitchff[pitchf > 0] = 1`, then `pitchff[pitchf < 1] = protect` (the second
assignment overwrites the first wherever `pitchf < 1`). -/
def pitchffVal (protect pf : ℚ) : ℚ :=
  let v := pf
  let v := if 0 < pf then 1 else v
  if pf < 1 then protect else v

/-- Line 451, `feats = feats * pitchff + feats0 * (1 - pitchff)` for one frame:
`blended` is the post-retrieval row, `unblended` the pre-retrieval clone. -/
def protectRow (protect pf : ℚ) (blended unblended : Vec) : Vec :=
  fun c => blended c * pitchffVal protect pf + unblended c * (1 - pitchffVal protect pf)

/-- Line 446 gate: the blend only happens when `protect < 0.5` and a pitch
contour is present; otherwise the post-retrieval row is used as is. -/
def protectStepRow (protect : ℚ) (pitchPresent : Bool) (pf : ℚ)
    (blended unblended : Vec) : Vec :=
  if protect < 1/2 ∧ pitchPresent = true then protectRow protect pf blended unblended
  else blended

/-! ### Pitch estimation: harvest and hybrid fusion
(`cache_harvest_f0` lines 27-38, `VC.get_f0` lines 262-345,
`VC.get_f0_hybrid_computation` lines 175-260)

`pyworld.harvest` plus `pyworld.stonemask` is an external estimator; it is
abstracted as `harvestRaw`.  Likewise the remaining estimators (`pm`,
`crepe`, `crepe-tiny`, `mangio-crepe`, `mangio-crepe-tiny`, `dio`) reached
from the hybrid loop are external neural/DSP calls and are abstracted as
`other` (including, for `crepe` and `dio`, the `f0 = f0[1:]` / median-filter
post-processing the loop applies to them); `normalize` abstracts
`x /= np.quantile(np.abs(x), 0.999)` (lines 195-196). -/

/-- Median of three rationals (the scipy `medfilt` kernel applied at one point). -/
def med3 (a b c : ℚ) : ℚ := max (min a b) (min (max a b) c)

/-- The external estimator bundle used by `get_f0` and the hybrid loop. -/
structure F0Methods where
  harvestRaw : List ℚ → List ℚ
  other : String → List ℚ → List ℚ
  normalize : List ℚ → List ℚ

/-- `scipy.signal.medfilt(f0, 3)`: 3-tap running median with zero padding at
both edges. -/
def medfilt3 (l : List ℚ) : List ℚ :=
  (List.range l.length).map fun i =>
    med3 (if i = 0 then 0 else l.getD (i - 1) 0) (l.getD i 0) (l.getD (i + 1) 0)

/-- `VC.get_f0` lines 295-299, the standalone `"harvest"` branch (before the
semitone-shift multiplication): compute harvest on the waveform just stored in
`input_audio_path2wav`, then median-filter only when `filter_radius > 2`. -/
def getF0SingleHarvest (m : F0Methods) (x : List ℚ) (filterRadius : ℕ) : List ℚ :=
  let f0 := m.harvestRaw x
  if 2 < filterRadius then medfilt3 f0 else f0

/-- Sorted median of a list of rationals (`np.nanmedian` along one axis; the
contours carry no NaN in this model). -/
def medianQ (l : List ℚ) : ℚ :=
  let s := l.mergeSort (fun a b => decide (a ≤ b))
  if l.length % 2 = 1 then s.getD (l.length / 2) 0
  else (s.getD (l.length / 2 - 1) 0 + s.getD (l.length / 2) 0) / 2

/-- `np.nanmedian(stack, axis=0)`: per-frame median across the stacked contours. -/
def medianStack (stack : List (List ℚ)) : List ℚ :=
  stack.transpose.map medianQ

/-- One iteration of the hybrid method loop (lines 198-249) producing the
contour pushed onto `f0_computation_stack`.  The `"harvest"` arm (lines
230-234) reads the cached original waveform (not the normalized copy), applies
the optional 3-tap median filter, then drops the first frame (`f0 = f0[1:]`).
Every other arm is an external estimator call on the normalized waveform,
abstracted by `m.other`. -/
def hybridMethodContour (m : F0Methods) (xNorm cachedWav : List ℚ)
    (filterRadius : ℕ) (name : String) : List ℚ :=
  if name = "harvest" then
    let f0 := m.harvestRaw cachedWav
    let f0 := if 2 < filterRadius then medfilt3 f0 else f0
    f0.drop 1
  else m.other name xNorm

/-- `VC.get_f0_hybrid_computation` (lines 175-260) for an already-parsed method
list: normalize the input, compute each method's contour, and take the
per-frame median — unless exactly one method was selected, in which case
`f0_computation_stack[0]` is returned as is (lines 256-257). -/
def getF0HybridComputation (m : F0Methods) (x cachedWav : List ℚ)
    (methods : List String) (filterRadius : ℕ) : List ℚ :=
  let xNorm := m.normalize x
  let stack := methods.map (hybridMethodContour m xNorm cachedWav filterRadius)
  if stack.length = 1 then stack.getD 0 [] else medianStack stack

/-! ### The harvest cache (`cache_harvest_f0` lines 24-38 and its call sites
lines 295-297, 333)

`cache_harvest_f0` is decorated with `functools.lru_cache`; its argument list
is `(input_audio_path, fs, f0max, f0min, frame_period)` and `get_f0` always
passes `(path, 16000, 1100, 50, 10)`, so within `get_f0` the cache key reduces
to the audio path.  The waveform itself is NOT part of the key: the function
body reads it from the global dict `input_audio_path2wav`, which the caller
mutates just before the call.  Both mutable structures are modelled as
explicit state. -/

/-- The process-global mutable state around `cache_harvest_f0`:
`input_audio_path2wav` and the `lru_cache` memo table. -/
structure HarvestState where
  path2wav : String → Option (List ℚ)
  cache : String → Option (List ℚ)

/-- The fresh state at process start. -/
def harvestState0 : HarvestState := ⟨fun _ => none, fun _ => none⟩

/-- `cache_harvest_f0(path, 16000, 1100, 50, 10)`: on a memo hit the stored
contour is returned and the body (which would read the current waveform from
`input_audio_path2wav`) never runs; on a miss the body runs on the currently
stored waveform and the result is memoized. -/
def cache_harvest_f0 (hv : List ℚ → List ℚ) (st : HarvestState) (path : String) :
    List ℚ × HarvestState :=
  match st.cache path with
  | some f0 => (f0, st)
  | none =>
      let f0 := hv ((st.path2wav path).getD [])
      (f0, { st with cache := fun p => if p = path then some f0 else st.cache p })

/-- `VC.get_f0` lines 296-297 for the `"harvest"` method:
`input_audio_path2wav[input_audio_path] = x.astype(np.double)` followed by
`cache_harvest_f0(input_audio_path, self.sr, f0_max, f0_min, 10)`. -/
def getF0HarvestCall (hv : List ℚ → List ℚ) (st : HarvestState) (path : String)
    (x : List ℚ) : List ℚ × HarvestState :=
  cache_harvest_f0 hv
    { st with path2wav := fun p => if p = path then some x else st.path2wav p } path

/-! ### Chunk planning (`VC.pipeline` lines 513-528, 567-568)

Constants: `self.sr = 16000`, `self.window = 160` (lines 72-73);
`t_query = sr * x_query`, `t_center = sr * x_center`, `t_max = sr * x_max`
(lines 77-79) with `x_query`, `x_center`, `x_max` caller-supplied
configuration, kept as parameters here. -/

/-- `self.window = 160`: samples per analysis frame (line 73). -/
def window : ℕ := 160

/-- Line 518-519: `audio_sum[j] = Σ_{i<160} audio_pad[j+i]`, the moving-sum
energy envelope over the half-window reflect-padded signal. -/
def audioSum (audioPad : List ℚ) (j : ℕ) : ℚ :=
  ∑ i ∈ Finset.range window, audioPad.getD (j + i) 0

/-- `np.where(np.abs(s) == np.abs(s).min())[0][0]` over a slice of length
`len`: the first index attaining the minimum of `g` (the caller passes
`g i = |audio_sum (base + i)|`). -/
def argminFirst (g : ℕ → ℚ) (len : ℕ) : ℕ :=
  (List.range len).foldl (fun best i => if g i < g best then i else best) 0

/-- Number of iterations of `range(self.t_center, audio.shape[0], self.t_center)`
(line 520): the multiples `k·t_center`, `k ≥ 1`, below `L`. -/
def numTargets (L tCenter : ℕ) : ℕ := (L - 1) / tCenter

/-- Lines 520-528 for target number `k` (so `t = (k+1)·t_center`): the raw cut
offset `t - t_query + argmin |audio_sum[t-t_query : t+t_query]|`, with the
slice clipped at the envelope length `L` as numpy does (so the slice starts at
`t - t_query` and has `min (t + t_query) L - (t - t_query)` entries). -/
def rawCut (e : ℕ → ℚ) (L tCenter tQuery : ℕ) (k : ℕ) : ℕ :=
  (k + 1) * tCenter - tQuery +
    argminFirst (fun i => |e ((k + 1) * tCenter - tQuery + i)|)
      (min ((k + 1) * tCenter + tQuery) L - ((k + 1) * tCenter - tQuery))

/-- The full `opt_ts` list built by lines 515-528. -/
def optTs (e : ℕ → ℚ) (L tCenter tQuery : ℕ) : List ℕ :=
  (List.range (numTargets L tCenter)).map (rawCut e L tCenter tQuery)

/-- Line 568, `t = t // self.window * self.window`: each cut is snapped down to
a multiple of the 160-sample hop before slicing. -/
def snapCut (t : ℕ) : ℕ := t / window * window

/-- The snapped cut offsets actually used to split the audio (lines 567-568). -/
def cutOffsets (e : ℕ → ℚ) (L tCenter tQuery : ℕ) : List ℕ :=
  (optTs e L tCenter tQuery).map snapCut

/-- `np.pad(x, (p, p), mode="reflect")` (lines 514 and 533). -/
def reflectPad (x : List ℚ) (p : ℕ) : List ℚ :=
  ((List.range p).map fun i => x.getD (p - i) 0) ++ x ++
    ((List.range p).map fun i => x.getD (x.length - 2 - i) 0)

/-! ### The filtfilt front end (`VC.pipeline` line 513, coefficients line 22)

`bh, ah = signal.butter(N=5, Wn=48, btype="high", fs=16000)` produces
order-5 coefficient arrays of length 6, so `signal.filtfilt`'s default
`padlen = 3 * max(len(ah), len(bh)) = 18` and scipy raises `ValueError`
whenever the input is not longer than `padlen`.  The filter kernel itself is
opaque (`hp`); the length precondition is modelled with `Except`. -/

/-- Scipy's default `padlen` for the order-5 Butterworth coefficient arrays. -/
def butterPadlen : ℕ := 18

/-- `signal.filtfilt(bh, ah, audio)` with its scipy length precondition. -/
def filtfiltHP (hp : List ℚ → List ℚ) (x : List ℚ) : Except String (List ℚ) :=
  if x.length ≤ butterPadlen then
    Except.error "ValueError: The length of the input vector x must be greater than padlen"
  else Except.ok (hp x)

/-! ### Pipeline dataflow (`VC.pipeline` lines 513-534, 549, 567-640)

What matters for the dataflow claims is which signal each downstream stage
receives.  `pipelineTrace` follows the source order: line 513 rebinds `audio`
to the filtered signal, and every later use of `audio` / `audio_pad` —
the chunk-search envelope (514-528), the pitch-estimation input (533, 549),
the per-chunk conversion slices (575, 592, 610, 627) and the `change_rms`
source argument (640) — refers to that rebound variable. -/

/-- External operations the orchestrator consumes: `hpFilter N Wn btype fs` is
`signal.filtfilt` with the `signal.butter(N, Wn, btype, fs)` coefficients. -/
structure PipelineExt where
  hpFilter : ℕ → ℚ → String → ℕ → (List ℚ → List ℚ)

/-- Line 22: the module-level coefficients `bh, ah` come from
`signal.butter(N=5, Wn=48, btype="high", fs=16000)`. -/
def bhAhFilter (ext : PipelineExt) : List ℚ → List ℚ := ext.hpFilter 5 48 "high" 16000

/-- The signals handed to each downstream stage of one pipeline invocation. -/
structure PipelineTrace where
  filtered : List ℚ
  envelopeInput : List ℚ
  chunkCuts : List ℕ
  f0Input : List ℚ
  chunkSource : List ℚ
  rmsSource : List ℚ
  deriving DecidableEq

/-- Lines 513-534 and 640, keeping the stage inputs: filter first, then plan
cuts on the filtered signal's envelope, pad the filtered signal for pitch
estimation and chunk conversion, and use the filtered signal as the
`change_rms` source. -/
def pipelineTrace (ext : PipelineExt) (audio0 : List ℚ)
    (tCenter tQuery tMax tPad : ℕ) : PipelineTrace :=
  let audio := bhAhFilter ext audio0
  let audioPadHalf := reflectPad audio (window / 2)
  let cuts :=
    if tMax < audioPadHalf.length then
      cutOffsets (fun j => audioSum audioPadHalf j) audio.length tCenter tQuery
    else []
  let audioPad := reflectPad audio tPad
  { filtered := audio
    envelopeInput := audio
    chunkCuts := cuts
    f0Input := audioPad
    chunkSource := audioPad
    rmsSource := audio }

/-- The same stages, defined over an already-filtered signal only: the raw
caller samples do not occur. -/
def pipelineTraceFromFiltered (filtered : List ℚ)
    (tCenter tQuery tMax tPad : ℕ) : PipelineTrace :=
  let audioPadHalf := reflectPad filtered (window / 2)
  let cuts :=
    if tMax < audioPadHalf.length then
      cutOffsets (fun j => audioSum audioPadHalf j) filtered.length tCenter tQuery
    else []
  let audioPad := reflectPad filtered tPad
  { filtered := filtered
    envelopeInput := filtered
    chunkCuts := cuts
    f0Input := audioPad
    chunkSource := audioPad
    rmsSource := filtered }

/-! ### Coarse-pitch mapping (`VC.get_f0` lines 275-278 and 361-370)

`np.log` and `np.rint` work on floats; the mapping is embedded over `ℝ`
(`np.rint` rounds half to even, which is modelled exactly). -/

/-- The mel transform `1127 * np.log(1 + f / 700)` (lines 277-278, 362). -/
noncomputable def melScale (f : ℝ) : ℝ := 1127 * Real.log (1 + f / 700)

/-- Line 277 with `f0_min = 50`. -/
noncomputable def f0MelMin : ℝ := melScale 50

/-- Line 278 with `f0_max = 1100`. -/
noncomputable def f0MelMax : ℝ := melScale 1100

/-- Lines 363-365, the masked assignment
`f0_mel[f0_mel > 0] = (f0_mel[f0_mel > 0] - f0_mel_min) * 254 / (f0_mel_max - f0_mel_min) + 1`
at one frame. -/
noncomputable def melScaled (m : ℝ) : ℝ :=
  if 0 < m then (m - f0MelMin) * 254 / (f0MelMax - f0MelMin) + 1 else m

/-- Line 366, `f0_mel[f0_mel <= 1] = 1` at one frame (applied to the updated value). -/
noncomputable def clampLow (m : ℝ) : ℝ := if m ≤ 1 then 1 else m

/-- Line 367, `f0_mel[f0_mel > 255] = 255` at one frame. -/
noncomputable def clampHigh (m : ℝ) : ℝ := if 255 < m then 255 else m

/-- Lines 362-367 for one frame: mel transform, rescale of the positive mel
values onto `[1, 255]`, clamp below at 1 and above at 255, in source order. -/
noncomputable def melClamped (f : ℝ) : ℝ :=
  clampHigh (clampLow (melScaled (melScale f)))

/-- `np.rint`: round to nearest integer, ties to even. -/
noncomputable def rint (x : ℝ) : ℤ :=
  if x - ⌊x⌋ < 1/2 then ⌊x⌋
  else if 1/2 < x - ⌊x⌋ then ⌊x⌋ + 1
  else if ⌊x⌋ % 2 = 0 then ⌊x⌋ else ⌊x⌋ + 1

/-- Line 368, `f0_coarse = np.rint(f0_mel).astype(np.int32)` for one frame:
the complete Hz-to-bucket map applied to each (already semitone-shifted)
contour value. -/
noncomputable def f0Coarse (f : ℝ) : ℤ := rint (melClamped f)

/-! ### Loudness matching (`change_rms`, lines 41-60)

`librosa.feature.rms` is an external call producing an envelope (values and
frame count); it is abstracted as `rmsEnv`.  `F.interpolate(mode="linear")`
(align_corners false, torch's default) is embedded exactly. -/

/-- `F.interpolate(src, size=m, mode="linear")` at output position `i`:
source coordinate `(i + 1/2)·n/m - 1/2` clamped below at 0, linear blend of
the two neighbouring source samples, upper neighbour clamped to `n - 1`. -/
noncomputable def interpLinear (src : ℕ → ℝ) (n m : ℕ) (i : ℕ) : ℝ :=
  let c : ℝ := max 0 ((i + 1/2) * n / m - 1/2)
  let i0 : ℕ := ⌊c⌋₊
  let i1 : ℕ := min (i0 + 1) (n - 1)
  src i0 * (1 - (c - i0)) + src i1 * (c - i0)

/-- `change_rms(data1, sr1, data2, sr2, rate)` (lines 41-60): compute both
short-time RMS envelopes (frame `sr//2*2`, hop `sr//2`), interpolate each to
`data2`'s sample count, floor the converted envelope at `1e-6`
(line 55, after interpolation), and rescale every converted sample by
`rms1^(1-rate) * rms2^(rate-1)`. -/
noncomputable def change_rms (rmsEnv : List ℝ → ℕ → ℕ → (ℕ → ℝ) × ℕ)
    (data1 : List ℝ) (sr1 : ℕ) (data2 : List ℝ) (sr2 : ℕ) (rate : ℝ) : List ℝ :=
  let e1 := rmsEnv data1 (sr1 / 2 * 2) (sr1 / 2)
  let e2 := rmsEnv data2 (sr2 / 2 * 2) (sr2 / 2)
  let m := data2.length
  let rms1 := fun i => interpLinear e1.1 e1.2 m i
  let rms2 := fun i => max (interpLinear e2.1 e2.2 m i) (1 / 1000000)
  (List.range m).map fun i =>
    data2.getD i 0 * (rms1 i ^ (1 - rate) * rms2 i ^ (rate - 1))

/-- Spec-side formula (§4.5): every converted sample is multiplied by
`(source_rms)^(1−rate) · (converted_rms)^(rate−1)`, with both envelopes
linearly interpolated to the converted sample count and the converted
envelope floored at `1e-6`. -/
noncomputable def specLoudnessMatch (rmsEnv : List ℝ → ℕ → ℕ → (ℕ → ℝ) × ℕ)
    (data1 : List ℝ) (sr1 : ℕ) (data2 : List ℝ) (sr2 : ℕ) (rate : ℝ) : List ℝ :=
  let e1 := rmsEnv data1 (sr1 / 2 * 2) (sr1 / 2)
  let e2 := rmsEnv data2 (sr2 / 2 * 2) (sr2 / 2)
  (List.range data2.length).map fun i =>
    data2.getD i 0 *
      ((interpLinear e1.1 e1.2 data2.length i) ^ (1 - rate) *
        (max (interpLinear e2.1 e2.2 data2.length i) (1 / 1000000)) ^ (rate - 1))

/-- `VC.pipeline` lines 639-640: loudness matching is skipped entirely when
`rms_mix_rate == 1`. -/
noncomputable def applyRmsMix (rmsEnv : List ℝ → ℕ → ℕ → (ℕ → ℝ) × ℕ)
    (audio : List ℝ) (audioOpt : List ℝ) (tgtSr : ℕ) (rate : ℝ) : List ℝ :=
  if rate ≠ 1 then change_rms rmsEnv audio 16000 audioOpt tgtSr rate else audioOpt

/-! ## Theorems -/

/-- Helper: reading every position of a list with its default-read yields the list. -/
theorem map_getD_range {α : Type} (l : List α) (d : α) :
    (List.range l.length).map (fun i => l.getD i d) = l := by
  apply List.ext_getElem
  · simp
  · intro i h1 h2
    simp [List.getD_eq_getElem?_getD, List.getElem?_eq_getElem h2]

/-- C10: in `VC.pipeline` the input waveform is first passed through the fixed
`signal.butter(N=5, Wn=48, btype="high", fs=16000)` filter via `filtfilt`
(line 513 rebinds `audio`), and every downstream stage — the chunk-search
envelope, the pitch-estimation input, the chunk slices and the `change_rms`
source — operates on that filtered signal, never on the caller's samples. -/
theorem c10_highpass_first (ext : PipelineExt) (audio0 : List ℚ)
    (tCenter tQuery tMax tPad : ℕ) :
    pipelineTrace ext audio0 tCenter tQuery tMax tPad =
      pipelineTraceFromFiltered (ext.hpFilter 5 48 "high" 16000 audio0)
        tCenter tQuery tMax tPad := rfl

/-- C6: if the blend ratio is 0, the index path is empty, the file is missing,
or reading/reconstructing the index fails, the feature sequence passes through
the retrieval step unchanged (the `try/except` at lines 504-510 makes the
failure non-fatal, and `VC.vc` lines 409-413 then skip the blend). -/
theorem c6_index_failure_passthrough (fileIndex : String) (fileExists : Bool)
    (rate : ℚ) (readResult : Option FaissIndex) (feats : List Vec)
    (h : rate = 0 ∨ fileIndex = "" ∨ fileExists = false ∨ readResult = none) :
    vcFeatureStep (loadIndex fileIndex fileExists rate readResult) rate feats = feats := by
  have hnone : loadIndex fileIndex fileExists rate readResult = none := by
    unfold loadIndex
    rcases h with h | h | h | h
    · simp [h]
    · simp [h]
    · simp [h]
    · split <;> simp [h]
  rw [hnone]
  rfl

/-- Witness for C6 at a concrete input: blend ratio 0 with an existing,
readable index still passes the features through. -/
theorem c6_index_failure_passthrough_witness :
    ((0:ℚ) = 0 ∨ "idx.bin" = "" ∨ true = false ∨
      (some ⟨fun _ => ⟨fun _ => 1, fun i => i.val⟩, fun _ _ => 2⟩ :
        Option FaissIndex) = none) ∧
    vcFeatureStep
      (loadIndex "idx.bin" true 0
        (some ⟨fun _ => ⟨fun _ => 1, fun i => i.val⟩, fun _ _ => 2⟩))
      0 [fun _ => 3] = [fun _ => 3] :=
  ⟨Or.inl rfl,
    c6_index_failure_passthrough "idx.bin" true 0
      (some ⟨fun _ => ⟨fun _ => 1, fun i => i.val⟩, fun _ _ => 2⟩)
      [fun _ => 3] (Or.inl rfl)⟩

/-- C7 fails as stated: at `protect = 0 < 0.5` with a pitch contour present,
the frame with fine pitch `1/2 > 0` is voiced according to the claim, yet the
generator input is not the full blended feature row (here coordinate 0 of the
output is the unblended value `0`, not the blended value `1`), because lines
448-449 overwrite the mask with `protect` wherever `pitchf < 1`. -/
theorem c7_voiced_fraction_counterexample :
    (0:ℚ) < 1/2 ∧ (0:ℚ) < (1/2:ℚ) ∧
      protectStepRow 0 true (1/2) (fun _ => 1) (fun _ => 0) 0 ≠
        (fun _ => (1:ℚ)) 0 := by
  refine ⟨by norm_num, by norm_num, ?_⟩
  norm_num [protectStepRow, protectRow, pitchffVal]

/-- C7 amended: with `protect < 0.5` and a pitch contour present, a frame
whose fine pitch is 0 — and more generally any frame with fine pitch < 1,
which is what the code actually treats as unvoiced — receives
`protect·blended + (1−protect)·unblended`; a frame is given the full blended
features exactly when its fine pitch is at least 1. -/
theorem c7_protect_blend_amended (protect pf : ℚ) (blended unblended : Vec)
    (hp : protect < 1/2) :
    (pf = 0 → protectStepRow protect true pf blended unblended =
        fun c => blended c * protect + unblended c * (1 - protect)) ∧
    (1 ≤ pf → protectStepRow protect true pf blended unblended = blended) ∧
    (pf < 1 → protectStepRow protect true pf blended unblended =
        fun c => blended c * protect + unblended c * (1 - protect)) := by
  have hgate : ∀ q b u, protectStepRow protect true q b u = protectRow protect q b u := by
    intro q b u
    unfold protectStepRow
    rw [if_pos ⟨hp, rfl⟩]
  refine ⟨?_, ?_, ?_⟩
  · intro h0
    funext c
    rw [hgate]
    unfold protectRow pitchffVal
    rw [h0]
    norm_num
  · intro h1
    funext c
    have h0 : (0:ℚ) < pf := lt_of_lt_of_le one_pos h1
    have hn : ¬ pf < 1 := not_lt.2 h1
    rw [hgate]
    unfold protectRow pitchffVal
    rw [if_neg hn, if_pos h0]
    ring
  · intro hlt
    funext c
    rw [hgate]
    unfold protectRow pitchffVal
    rw [if_pos hlt]

/-- Witness for the amended C7 at a concrete input: fine pitch 1 is voiced and
keeps the blended row; fine pitch 0 gets the protect blend. -/
theorem c7_protect_blend_amended_witness :
    ((0:ℚ) < 1/2 ∧ (1:ℚ) ≤ 1 ∧ (0:ℚ) = 0) ∧
    protectStepRow 0 true 1 (fun _ => 2) (fun _ => 3) = (fun _ => (2:ℚ)) ∧
    protectStepRow 0 true 0 (fun _ => 2) (fun _ => 3) =
      (fun c => (fun _ => (2:ℚ)) c * 0 + (fun _ => (3:ℚ)) c * (1 - 0)) :=
  ⟨⟨by norm_num, le_rfl, rfl⟩,
    (c7_protect_blend_amended 0 1 (fun _ => 2) (fun _ => 3) (by norm_num)).2.1 le_rfl,
    (c7_protect_blend_amended 0 0 (fun _ => 2) (fun _ => 3) (by norm_num)).1 rfl⟩

/-- C2 fails as stated: with harvest as the single selected hybrid method
(filter radius 0, so no median smoothing on either path), an external harvest
contour `[100, 200, 300]` makes the hybrid computation return `[200, 300]` —
the standalone contour with its first frame dropped by line 234 — which is not
the standalone output `[100, 200, 300]`. -/
theorem c2_hybrid_single_counterexample :
    getF0HybridComputation
        ⟨fun _ => [100, 200, 300], fun _ _ => [], fun x => x⟩ [1] [1] ["harvest"] 0 =
      [200, 300] ∧
    getF0SingleHarvest
        ⟨fun _ => [100, 200, 300], fun _ _ => [], fun x => x⟩ [1] 0 =
      [100, 200, 300] ∧
    ([200, 300] : List ℚ) ≠ [100, 200, 300] := by
  refine ⟨rfl, rfl, by decide⟩

/-- C2 amended: with exactly one method selected the hybrid mode applies no
median fusion — the stack's single contour passes through — but that contour
is the method's contour as computed inside the hybrid loop; for harvest this
equals the standalone harvest output with its first frame dropped
(`f0 = f0[1:]`, line 234), not the standalone output itself. -/
theorem c2_hybrid_single_amended (m : F0Methods) (x cachedWav : List ℚ)
    (name : String) (filterRadius : ℕ) :
    getF0HybridComputation m x cachedWav [name] filterRadius =
      hybridMethodContour m (m.normalize x) cachedWav filterRadius name ∧
    getF0HybridComputation m x x ["harvest"] filterRadius =
      (getF0SingleHarvest m x filterRadius).drop 1 := by
  constructor
  · rfl
  · simp [getF0HybridComputation, hybridMethodContour, getF0SingleHarvest]

/-- C8: the harvest cache is a genuine staleness bug.  Two successive
harvest-method calls with the same audio-path key `"a"` but different
waveforms: the second call returns the first call's memoized contour (here the
stand-in recomputation is the identity, so `[1]`), not the uncached
recomputation `[2]` on the waveform it was given — `lru_cache` never sees the
updated `input_audio_path2wav` entry. -/
theorem c8_stale_cache_eval :
    (getF0HarvestCall (fun w => w) harvestState0 "a" [1]).1 = [1] ∧
    (getF0HarvestCall (fun w => w)
        (getF0HarvestCall (fun w => w) harvestState0 "a" [1]).2 "a" [2]).1 = [1] ∧
    (fun (w : List ℚ) => w) [2] = [2] ∧
    ([1] : List ℚ) ≠ [2] := by
  refine ⟨rfl, rfl, rfl, by decide⟩

/-- C9 fails as stated: on an empty waveform the very first pipeline operation,
`signal.filtfilt(bh, ah, audio)` (line 513), raises scipy's `ValueError`
because the input is not longer than the default pad length 18; the pipeline
does not return a degenerate output. -/
theorem c9_empty_waveform_counterexample :
    filtfiltHP (fun x => x) [] =
      Except.error
        "ValueError: The length of the input vector x must be greater than padlen" :=
  rfl

/-- C9 amended: a waveform of at most 18 samples (in particular an empty one)
raises in the initial high-pass filtering; longer waveforms pass through the
filter; an all-zero pitch contour raises nowhere — each zero-pitch frame is
simply treated as unvoiced (mask value `protect`); and a zero-length chunk
raises nowhere in the conversion unit's numeric steps — its empty feature
sequence passes through the retrieval step unchanged, for any index state and
blend ratio (degenerate in, degenerate out). -/
theorem c9_degenerate_inputs_amended (hp : List ℚ → List ℚ) (x : List ℚ)
    (protect : ℚ) (idx : Option FaissIndex) (rate : ℚ) :
    (x.length ≤ butterPadlen → filtfiltHP hp x =
      Except.error
        "ValueError: The length of the input vector x must be greater than padlen") ∧
    (butterPadlen < x.length → filtfiltHP hp x = Except.ok (hp x)) ∧
    pitchffVal protect 0 = protect ∧
    vcFeatureStep idx rate [] = [] := by
  refine ⟨?_, ?_, ?_, ?_⟩
  · intro h
    simp [filtfiltHP, h]
  · intro h
    simp [filtfiltHP, not_le.2 h]
  · simp [pitchffVal]
  · cases idx <;> simp [vcFeatureStep, vcRetrieve]

/-- Witness for the amended C9 at concrete inputs: the empty waveform errors,
a 19-sample waveform passes the filter, a zero-pitch frame gets mask 0, and a
zero-length chunk's empty feature sequence passes through retrieval. -/
theorem c9_degenerate_inputs_amended_witness :
    ((List.length ([] : List ℚ) ≤ butterPadlen) ∧
      (butterPadlen < List.length (List.replicate 19 (0:ℚ)))) ∧
    filtfiltHP (fun x => x) [] =
      Except.error
        "ValueError: The length of the input vector x must be greater than padlen" ∧
    filtfiltHP (fun x => x) (List.replicate 19 (0:ℚ)) =
      Except.ok ((fun x => x) (List.replicate 19 (0:ℚ))) ∧
    pitchffVal (1/4) 0 = 1/4 ∧
    vcFeatureStep (some ⟨fun _ => ⟨fun _ => 1, fun i => i.val⟩, fun _ _ => 2⟩)
      (1/2) [] = [] :=
  ⟨⟨by simp [butterPadlen], by simp [butterPadlen]⟩,
    (c9_degenerate_inputs_amended (fun x => x) [] (1/4) none 0).1
      (by simp [butterPadlen]),
    (c9_degenerate_inputs_amended (fun x => x) (List.replicate 19 (0:ℚ)) (1/4)
      none 0).2.1 (by simp [butterPadlen]),
    (c9_degenerate_inputs_amended (fun x => x) [] (1/4) none 0).2.2.1,
    (c9_degenerate_inputs_amended (fun x => x) [] (1/4)
      (some ⟨fun _ => ⟨fun _ => 1, fun i => i.val⟩, fun _ _ => 2⟩) (1/2)).2.2.2⟩

/-- C5: `change_rms` multiplies each converted sample by
`(source_rms)^(1−rate) · (converted_rms)^(rate−1)` with both envelopes
linearly interpolated to the converted sample count and the converted
envelope floored at `1e-6` (the spec formula of §4.5); with `rate = 1` the
converted waveform is returned unchanged — both when `change_rms` runs (every
multiplier is `x^0 · y^0 = 1`) and at the pipeline gate that skips the call. -/
theorem c5_loudness_match :
    (∀ (rmsEnv : List ℝ → ℕ → ℕ → (ℕ → ℝ) × ℕ) (d1 : List ℝ) (sr1 : ℕ)
        (d2 : List ℝ) (sr2 : ℕ) (rate : ℝ),
      change_rms rmsEnv d1 sr1 d2 sr2 rate = specLoudnessMatch rmsEnv d1 sr1 d2 sr2 rate) ∧
    (∀ (rmsEnv : List ℝ → ℕ → ℕ → (ℕ → ℝ) × ℕ) (d1 : List ℝ) (sr1 : ℕ)
        (d2 : List ℝ) (sr2 : ℕ),
      change_rms rmsEnv d1 sr1 d2 sr2 1 = d2) ∧
    (∀ (rmsEnv : List ℝ → ℕ → ℕ → (ℕ → ℝ) × ℕ) (audio audioOpt : List ℝ)
        (tgtSr : ℕ),
      applyRmsMix rmsEnv audio audioOpt tgtSr 1 = audioOpt) := by
  refine ⟨fun _ _ _ _ _ _ => rfl, ?_, ?_⟩
  · intro rmsEnv d1 sr1 d2 sr2
    unfold change_rms
    have h0 : (1:ℝ) - 1 = 0 := by norm_num
    simp only [h0, Real.rpow_zero, mul_one, one_mul]
    exact map_getD_range d2 0
  · intro rmsEnv audio audioOpt tgtSr
    simp [applyRmsMix]

/-- Helper: the code's normalized weight `np.square(1/score) / Σ np.square(1/score)`
is the spec's `(1/distance²) / Σ (1/distance²)`. -/
theorem weightNorm_eq_specWeight (h : SearchHit) (i : Fin 8) :
    weightNorm h i = specWeight h i := by
  unfold weightNorm specWeight weightSum weightRaw
  simp [div_pow]

/-- Helper: one blended row of the retrieval step equals the spec formula row. -/
theorem blendRow_eq_specBlendRow (bigNpy : ℕ → Vec) (h : SearchHit) (rate : ℚ)
    (q : Vec) : blendRow bigNpy h rate q = specBlendRow bigNpy h rate q := by
  funext c
  unfold blendRow specBlendRow retrievedRow
  have hsum : ∑ i, bigNpy (h.ix i) c * weightNorm h i =
      ∑ i, specWeight h i * bigNpy (h.ix i) c := by
    refine Finset.sum_congr rfl fun i _ => ?_
    rw [weightNorm_eq_specWeight, mul_comm]
  rw [hsum, mul_comm]

/-- C1: with a readable index present and blend ratio `0 < r ≤ 1`, every
output row of the retrieval step is
`r · (weighted average of the k=8 nearest reference vectors, weights
1/distance² normalized to sum to 1) + (1−r) · (original query row)`,
for every query feature matrix. -/
theorem c1_retrieval_blend (search : Vec → SearchHit) (bigNpy : ℕ → Vec)
    (rate : ℚ) (feats : List Vec) (h0 : 0 < rate) (h1 : rate ≤ 1) :
    vcFeatureStep (some ⟨search, bigNpy⟩) rate feats =
      feats.map (fun q => specBlendRow bigNpy (search q) rate q) := by
  have hr : rate ≠ 0 := ne_of_gt h0
  simp only [vcFeatureStep, vcRetrieve]
  rw [if_pos hr]
  exact List.map_congr_left fun q _ => blendRow_eq_specBlendRow bigNpy (search q) rate q

/-- Witness for C1 at a concrete input: one query row, unit distances,
ratio 1. -/
theorem c1_retrieval_blend_witness :
    ((0:ℚ) < 1 ∧ (1:ℚ) ≤ 1) ∧
    vcFeatureStep (some ⟨fun _ => ⟨fun _ => 1, fun i => i.val⟩, fun _ _ => 2⟩)
        1 [fun _ => 3] =
      List.map
        (fun q => specBlendRow (fun _ _ => 2) ((fun _ => ⟨fun _ => 1, fun i => i.val⟩) q) 1 q)
        [fun _ => 3] :=
  ⟨⟨one_pos, le_rfl⟩,
    c1_retrieval_blend (fun _ => ⟨fun _ => 1, fun i => i.val⟩) (fun _ _ => 2) 1
      [fun _ => 3] one_pos le_rfl⟩

/-- Helper: `np.rint` stays between the floor and the floor plus one. -/
theorem rint_bounds (x : ℝ) : ⌊x⌋ ≤ rint x ∧ rint x ≤ ⌊x⌋ + 1 := by
  unfold rint
  split_ifs <;> omega

/-- Helper: `np.rint` (round half to even) is monotone. -/
theorem rint_mono {a b : ℝ} (h : a ≤ b) : rint a ≤ rint b := by
  rcases lt_or_le ⌊a⌋ ⌊b⌋ with hf | hf
  · have h1 := (rint_bounds a).2
    have h2 := (rint_bounds b).1
    omega
  · have heq : ⌊a⌋ = ⌊b⌋ := le_antisymm (Int.floor_le_floor h) hf
    have hfr : a - (⌊b⌋ : ℝ) ≤ b - (⌊b⌋ : ℝ) := by linarith
    unfold rint
    rw [heq]
    split_ifs <;> first | omega | (exfalso; linarith)

/-- Helper: `rint 1 = 1`. -/
theorem rint_one : rint 1 = 1 := by
  unfold rint
  rw [Int.floor_one]
  norm_num

/-- Helper: `rint 255 = 255`. -/
theorem rint_255 : rint 255 = 255 := by
  unfold rint
  have h : ⌊(255:ℝ)⌋ = 255 := by
    rw [show ((255:ℝ)) = ((255:ℤ) : ℝ) by norm_num, Int.floor_intCast]
  rw [h]
  norm_num

/-- Helper: the mel transform vanishes at 0 Hz. -/
theorem melScale_zero : melScale 0 = 0 := by
  unfold melScale
  norm_num

/-- Helper: the mel transform is nonnegative on nonnegative frequencies. -/
theorem melScale_nonneg {f : ℝ} (hf : 0 ≤ f) : 0 ≤ melScale f := by
  unfold melScale
  have h := Real.log_nonneg (by linarith : (1:ℝ) ≤ 1 + f / 700)
  linarith

/-- Helper: the mel transform is monotone on nonnegative frequencies. -/
theorem melScale_mono {a b : ℝ} (ha : 0 ≤ a) (hab : a ≤ b) :
    melScale a ≤ melScale b := by
  unfold melScale
  have h1 : (0:ℝ) < 1 + a / 700 := by linarith
  have h2 : 1 + a / 700 ≤ 1 + b / 700 := by linarith
  have h := Real.log_le_log h1 h2
  linarith

/-- Helper: the mel value of `f0_min = 50` is below that of `f0_max = 1100`. -/
theorem f0MelMin_lt_f0MelMax : f0MelMin < f0MelMax := by
  unfold f0MelMin f0MelMax melScale
  have h := Real.log_lt_log (by norm_num : (0:ℝ) < 1 + 50 / 700)
    (by norm_num : (1:ℝ) + 50 / 700 < 1 + 1100 / 700)
  linarith

/-- Helper: the mel value of `f0_max = 1100` is positive. -/
theorem f0MelMax_pos : 0 < f0MelMax := by
  unfold f0MelMax melScale
  have h := Real.log_pos (by norm_num : (1:ℝ) < 1 + 1100 / 700)
  linarith

/-- Helper: the lower clamp is bounded below by 1. -/
theorem clampLow_ge_one (m : ℝ) : 1 ≤ clampLow m := by
  unfold clampLow
  split_ifs <;> linarith

/-- Helper: both clamps are monotone. -/
theorem clampLow_mono {m m' : ℝ} (h : m ≤ m') : clampLow m ≤ clampLow m' := by
  unfold clampLow
  split_ifs <;> linarith

/-- Helper: the upper clamp is monotone. -/
theorem clampHigh_mono {m m' : ℝ} (h : m ≤ m') : clampHigh m ≤ clampHigh m' := by
  unfold clampHigh
  split_ifs <;> linarith

/-- Helper: the clamped mel value always lands in `[1, 255]`. -/
theorem melClamped_range (f : ℝ) : 1 ≤ melClamped f ∧ melClamped f ≤ 255 := by
  unfold melClamped
  have h1 := clampLow_ge_one (melScaled (melScale f))
  unfold clampHigh
  split_ifs <;> constructor <;> linarith

/-- Helper: the clamped mel value is monotone on nonnegative frequencies. -/
theorem melClamped_mono {a b : ℝ} (ha : 0 ≤ a) (hab : a ≤ b) :
    melClamped a ≤ melClamped b := by
  have hma := melScale_nonneg ha
  have hm : melScale a ≤ melScale b := melScale_mono ha hab
  rcases lt_or_le 0 (melScale a) with hpos | hnp
  · have hposb : 0 < melScale b := lt_of_lt_of_le hpos hm
    have hΔ : 0 < f0MelMax - f0MelMin := sub_pos.2 f0MelMin_lt_f0MelMax
    have hsc : melScaled (melScale a) ≤ melScaled (melScale b) := by
      unfold melScaled
      rw [if_pos hpos, if_pos hposb]
      have hle : (melScale a - f0MelMin) * 254 / (f0MelMax - f0MelMin) ≤
          (melScale b - f0MelMin) * 254 / (f0MelMax - f0MelMin) :=
        (div_le_div_iff_of_pos_right hΔ).2 (by linarith)
      linarith
    exact clampHigh_mono (clampLow_mono hsc)
  · have hz : melScale a = 0 := le_antisymm hnp hma
    have h1 : melClamped a = 1 := by
      unfold melClamped melScaled clampLow clampHigh
      rw [hz]
      norm_num
    rw [h1]
    exact (melClamped_range b).1

/-- Helper: 0 Hz maps to clamped mel value 1. -/
theorem melClamped_zero : melClamped 0 = 1 := by
  unfold melClamped melScaled clampLow clampHigh
  rw [melScale_zero]
  norm_num

/-- Helper: `f0_max = 1100` Hz maps to clamped mel value 255. -/
theorem melClamped_fmax : melClamped 1100 = 255 := by
  have hΔ : f0MelMax - f0MelMin ≠ 0 := ne_of_gt (sub_pos.2 f0MelMin_lt_f0MelMax)
  have hsc : melScaled (melScale 1100) = 255 := by
    unfold melScaled
    rw [if_pos (show 0 < melScale 1100 from f0MelMax_pos)]
    have : (melScale 1100 - f0MelMin) * 254 / (f0MelMax - f0MelMin) = 254 := by
      show (f0MelMax - f0MelMin) * 254 / (f0MelMax - f0MelMin) = 254
      rw [mul_comm, mul_div_assoc, div_self hΔ, mul_one]
    rw [this]
    norm_num
  unfold melClamped clampLow clampHigh
  rw [hsc]
  norm_num

/-- C4: the coarse-pitch mapping of `VC.get_f0` (lines 361-368) sends 0 Hz to
bucket 1 and `f0_max = 1100` Hz to bucket 255, is monotone non-decreasing on
nonnegative frequencies, and every output bucket lies in `[1, 255]`. -/
theorem c4_coarse_pitch :
    f0Coarse 0 = 1 ∧ f0Coarse 1100 = 255 ∧
    (∀ a b : ℝ, 0 ≤ a → a ≤ b → f0Coarse a ≤ f0Coarse b) ∧
    (∀ f : ℝ, 0 ≤ f → 1 ≤ f0Coarse f ∧ f0Coarse f ≤ 255) := by
  have hz : f0Coarse 0 = 1 := by
    unfold f0Coarse
    rw [melClamped_zero]
    exact rint_one
  have hx : f0Coarse 1100 = 255 := by
    unfold f0Coarse
    rw [melClamped_fmax]
    exact rint_255
  refine ⟨hz, hx, fun a b ha hab => rint_mono (melClamped_mono ha hab), fun f _ => ⟨?_, ?_⟩⟩
  · calc (1:ℤ) = rint 1 := rint_one.symm
    _ ≤ rint (melClamped f) := rint_mono (melClamped_range f).1
  · calc rint (melClamped f) ≤ rint 255 := rint_mono (melClamped_range f).2
    _ = 255 := rint_255

/-- Witness for C4 at concrete inputs: monotonicity and the bucket range
applied at 0 Hz and 1100 Hz. -/
theorem c4_coarse_pitch_witness :
    ((0:ℝ) ≤ 0 ∧ (0:ℝ) ≤ 1100) ∧
    f0Coarse 0 ≤ f0Coarse 1100 ∧
    (1 ≤ f0Coarse 1100 ∧ f0Coarse 1100 ≤ 255) :=
  ⟨⟨le_rfl, by norm_num⟩,
    c4_coarse_pitch.2.2.1 0 1100 le_rfl (by norm_num),
    c4_coarse_pitch.2.2.2 1100 (by norm_num)⟩

/-- Helper: the first-argmin fold stays below any bound dominating its
accumulator and all list elements. -/
theorem foldl_argmin_bound (g : ℕ → ℚ) :
    ∀ (l : List ℕ) (acc B : ℕ), acc < B → (∀ i ∈ l, i < B) →
      l.foldl (fun best i => if g i < g best then i else best) acc < B := by
  intro l
  induction l with
  | nil => intro acc B h _; simpa using h
  | cons x xs ih =>
      intro acc B h hl
      simp only [List.foldl_cons]
      apply ih
      · by_cases hx : g x < g acc
        · rw [if_pos hx]; exact hl x (List.mem_cons_self x xs)
        · rw [if_neg hx]; exact h
      · exact fun i hi => hl i (List.mem_cons_of_mem x hi)

/-- Helper: the fold leaves the accumulator unchanged when no element
strictly improves it. -/
theorem foldl_argmin_const (g : ℕ → ℚ) (p : ℕ) :
    ∀ (l : List ℕ), (∀ j ∈ l, ¬ g j < g p) →
      l.foldl (fun best i => if g i < g best then i else best) p = p := by
  intro l
  induction l with
  | nil => intro _; rfl
  | cons x xs ih =>
      intro hl
      simp only [List.foldl_cons]
      rw [if_neg (hl x (List.mem_cons_self x xs))]
      exact ih fun j hj => hl j (List.mem_cons_of_mem x hj)

/-- Helper: the argmin index is 0 on an empty slice and below `len` otherwise. -/
theorem argminFirst_lt (g : ℕ → ℚ) (len : ℕ) : argminFirst g len < max 1 len := by
  unfold argminFirst
  apply foldl_argmin_bound
  · exact lt_of_lt_of_le one_pos (le_max_left 1 len)
  · exact fun i hi => lt_of_lt_of_le (List.mem_range.1 hi) (le_max_right 1 len)

/-- Helper: `argminFirst` is the first index attaining the minimum, matching
`np.where(cond)[0][0]` on the equality-with-minimum mask. -/
theorem argminFirst_spec (g : ℕ → ℚ) (len p : ℕ) (hp : p < len)
    (hlt : ∀ j < p, g p < g j) (hle : ∀ j < len, g p ≤ g j) :
    argminFirst g len = p := by
  unfold argminFirst
  have hsplit : len = (p + 1) + (len - (p + 1)) := by omega
  rw [hsplit, List.range_add, List.foldl_append]
  have h1 : (List.range (p + 1)).foldl
      (fun best i => if g i < g best then i else best) 0 = p := by
    rw [List.range_succ, List.foldl_append]
    rcases Nat.eq_zero_or_pos p with hp0 | hp0
    · subst hp0; simp
    · have hacc := foldl_argmin_bound g (List.range p) 0 p hp0
        fun i hi => List.mem_range.1 hi
      simp only [List.foldl_cons, List.foldl_nil]
      rw [if_pos (hlt _ hacc)]
  rw [h1]
  apply foldl_argmin_const
  intro j hj
  obtain ⟨i, hi, rfl⟩ := List.mem_map.1 hj
  exact not_lt.2 (hle (p + 1 + i) (by have := List.mem_range.1 hi; omega))

/-- Helper: snapping never increases an offset. -/
theorem snapCut_le (t : ℕ) : snapCut t ≤ t := Nat.div_mul_le_self t window

/-- Helper: snapping loses less than one hop. -/
theorem snapCut_lt_add (t : ℕ) : t < snapCut t + window := by
  unfold snapCut window
  omega

/-- Helper: snapping preserves separation by at least one hop. -/
theorem snapCut_sep {s t : ℕ} (h : s + window ≤ t) :
    snapCut s + window ≤ snapCut t := by
  unfold snapCut window at *
  omega

/-- Helper: every snapped offset is a multiple of the 160-sample hop. -/
theorem window_dvd_snapCut (t : ℕ) : window ∣ snapCut t :=
  dvd_mul_left window (t / window)

/-- Helper: the raw cut for target `k` lies within the query neighbourhood
`[(k+1)·t_center − t_query, (k+1)·t_center + t_query)`. -/
theorem rawCut_bounds (e : ℕ → ℚ) (L tCenter tQuery : ℕ) (k : ℕ)
    (hq : 0 < tQuery) (hqc : tQuery ≤ tCenter) :
    (k + 1) * tCenter - tQuery ≤ rawCut e L tCenter tQuery k ∧
      rawCut e L tCenter tQuery k + 1 ≤ (k + 1) * tCenter + tQuery := by
  unfold rawCut
  have htc : tCenter ≤ (k + 1) * tCenter :=
    Nat.le_mul_of_pos_left tCenter (Nat.succ_pos k)
  have ht : tQuery ≤ (k + 1) * tCenter := le_trans hqc htc
  have ha := argminFirst_lt
    (fun i => |e ((k + 1) * tCenter - tQuery + i)|)
    (min ((k + 1) * tCenter + tQuery) L - ((k + 1) * tCenter - tQuery))
  have hmax : max 1 (min ((k + 1) * tCenter + tQuery) L - ((k + 1) * tCenter - tQuery)) ≤
      2 * tQuery := max_le (by omega) (by omega)
  omega

/-- C3 amended: provided the query neighbourhoods of consecutive targets do
not overlap (`2·t_query + 160 ≤ t_center`, true for the deployed
configurations), the snapped cut offsets are strictly increasing and every
offset — hence every inter-boundary gap — is a multiple of the 160-sample
hop; a non-final segment, however, is only bounded by
`t_center + 2·t_query + 160`, not by `t_max` (the first segment by
`t_center + t_query`). -/
theorem c3_chunk_boundaries_amended (e : ℕ → ℚ) (L tCenter tQuery : ℕ)
    (hq : 0 < tQuery) (hqc : tQuery ≤ tCenter)
    (hsep : 2 * tQuery + window ≤ tCenter) :
    List.Chain' (· < ·) (cutOffsets e L tCenter tQuery) ∧
    (∀ o ∈ cutOffsets e L tCenter tQuery, window ∣ o) ∧
    List.Chain' (fun a b => b - a ≤ tCenter + 2 * tQuery + window)
      (cutOffsets e L tCenter tQuery) ∧
    (∀ o ∈ (cutOffsets e L tCenter tQuery).head?, o ≤ tCenter + tQuery) := by
  have hw : 0 < window := by norm_num [window]
  have hcut : cutOffsets e L tCenter tQuery =
      (List.range (numTargets L tCenter)).map
        (fun k => snapCut (rawCut e L tCenter tQuery k)) := by
    unfold cutOffsets optTs
    rw [List.map_map]
    rfl
  have key : ∀ k, snapCut (rawCut e L tCenter tQuery k) <
      snapCut (rawCut e L tCenter tQuery (k + 1)) ∧
      snapCut (rawCut e L tCenter tQuery (k + 1)) -
        snapCut (rawCut e L tCenter tQuery k) ≤ tCenter + 2 * tQuery + window := by
    intro k
    have h1 := rawCut_bounds e L tCenter tQuery k hq hqc
    have h2 := rawCut_bounds e L tCenter tQuery (k + 1) hq hqc
    have hstep : (k + 1 + 1) * tCenter = (k + 1) * tCenter + tCenter := by ring
    have hr12 : rawCut e L tCenter tQuery k + window ≤
        rawCut e L tCenter tQuery (k + 1) := by omega
    have hsnap := snapCut_sep hr12
    have hs1 := snapCut_le (rawCut e L tCenter tQuery k)
    have hs1' := snapCut_lt_add (rawCut e L tCenter tQuery k)
    have hs2 := snapCut_le (rawCut e L tCenter tQuery (k + 1))
    omega
  have hchain : ∀ (R : ℕ → ℕ → Prop),
      (∀ k, R (snapCut (rawCut e L tCenter tQuery k))
        (snapCut (rawCut e L tCenter tQuery (k + 1)))) →
      List.Chain' R ((List.range (numTargets L tCenter)).map
        (fun k => snapCut (rawCut e L tCenter tQuery k))) := by
    intro R hR
    rw [List.chain'_map]
    cases numTargets L tCenter with
    | zero => simp
    | succ n => exact (List.chain'_range_succ _ n).2 fun m _ => hR m
  refine ⟨?_, ?_, ?_, ?_⟩
  · rw [hcut]
    exact hchain _ fun k => (key k).1
  · intro o ho
    rw [hcut] at ho
    obtain ⟨k, _, rfl⟩ := List.mem_map.1 ho
    exact window_dvd_snapCut _
  · rw [hcut]
    exact hchain _ fun k => (key k).2
  · intro o ho
    rw [hcut] at ho
    cases hN : numTargets L tCenter with
    | zero => rw [hN] at ho; simp at ho
    | succ n =>
        rw [hN, List.range_succ_eq_map] at ho
        simp only [List.map_cons, List.head?_cons, Option.mem_def,
          Option.some.injEq] at ho
        subst ho
        have hb := rawCut_bounds e L tCenter tQuery 0 hq hqc
        have hs := snapCut_le (rawCut e L tCenter tQuery 0)
        have h1 : (0 + 1) * tCenter = tCenter := by ring
        omega

/-- Witness for the amended C3 at a concrete configuration
(`t_query = 160`, `t_center = 480`, an all-ones envelope of a 481-sample
signal): one snapped cut, strictly ordered, hop-aligned and bounded. -/
theorem c3_chunk_boundaries_amended_witness :
    ((0:ℕ) < 160 ∧ (160:ℕ) ≤ 480 ∧ 2 * 160 + window ≤ 480) ∧
    (List.Chain' (· < ·) (cutOffsets (fun _ => 1) 481 480 160) ∧
    (∀ o ∈ cutOffsets (fun _ => 1) 481 480 160, window ∣ o) ∧
    List.Chain' (fun a b => b - a ≤ 480 + 2 * 160 + window)
      (cutOffsets (fun _ => 1) 481 480 160) ∧
    (∀ o ∈ (cutOffsets (fun _ => 1) 481 480 160).head?, o ≤ 480 + 160)) :=
  ⟨⟨by norm_num, by norm_num, by norm_num [window]⟩,
    c3_chunk_boundaries_amended (fun _ => 1) 481 480 160 (by norm_num)
      (by norm_num) (by norm_num [window])⟩

/-- Helper: `rawCut` evaluated through the first-argmin characterization,
keeping every argument symbolic. -/
theorem rawCut_eval_of_spec (e : ℕ → ℚ) (L tc tq k p : ℕ)
    (hp : p < min ((k + 1) * tc + tq) L - ((k + 1) * tc - tq))
    (hlt : ∀ j < p, |e ((k + 1) * tc - tq + p)| < |e ((k + 1) * tc - tq + j)|)
    (hle : ∀ j < min ((k + 1) * tc + tq) L - ((k + 1) * tc - tq),
      |e ((k + 1) * tc - tq + p)| ≤ |e ((k + 1) * tc - tq + j)|) :
    rawCut e L tc tq k = (k + 1) * tc - tq + p := by
  unfold rawCut
  rw [argminFirst_spec (fun i => |e ((k + 1) * tc - tq + i)|) _ p hp hlt hle]

/-- C3 fails as stated: with the sane configuration `t_center = 48000`,
`t_query = 16000`, `t_max = 64000` and a 97000-sample filtered signal whose
envelope is quiet exactly at samples 32000 and 96999, the padded length
`97000 + 160` exceeds `t_max`, yet the snapped offsets are `[32000, 96960]`
and the non-final segment between them has length `64960 > t_max`. -/
theorem c3_segment_exceeds_tmax_counterexample :
    cutOffsets (fun j => if j = 32000 ∨ j = 96999 then (0:ℚ) else 1)
        97000 48000 16000 = [32000, 96960] ∧
    64000 < 97000 + 2 * (window / 2) ∧
    ((0:ℕ) < 16000 ∧ (16000:ℕ) ≤ 48000 ∧ 2 * 16000 + window ≤ 48000) ∧
    64000 < 96960 - 32000 := by
  refine ⟨?_, by norm_num [window], ⟨by norm_num, by norm_num, by norm_num [window]⟩,
    by norm_num⟩
  have hN : numTargets 97000 48000 = 2 := by decide
  have h0 : rawCut (fun j => if j = 32000 ∨ j = 96999 then (0:ℚ) else 1)
      97000 48000 16000 0 = 32000 := by
    have h := rawCut_eval_of_spec
      (fun j => if j = 32000 ∨ j = 96999 then (0:ℚ) else 1) 97000 48000 16000 0 0
      (by norm_num [Nat.min_def])
      (fun j hj => absurd hj (Nat.not_lt_zero j))
      (by
        intro j hj
        norm_num)
    rw [h]
  have h1 : rawCut (fun j => if j = 32000 ∨ j = 96999 then (0:ℚ) else 1)
      97000 48000 16000 1 = 96999 := by
    have h := rawCut_eval_of_spec
      (fun j => if j = 32000 ∨ j = 96999 then (0:ℚ) else 1) 97000 48000 16000 1 16999
      (by norm_num [Nat.min_def])
      (by
        intro j hj
        have hne : ¬((1 + 1) * 48000 - 16000 + j = 32000 ∨
            (1 + 1) * 48000 - 16000 + j = 96999) := by omega
        norm_num at hne ⊢
        simp [hne.1, hne.2])
      (by
        intro j hj
        norm_num)
    rw [h]
  unfold cutOffsets optTs
  rw [hN]
  show List.map snapCut (List.map _ [0, 1]) = _
  simp only [List.map_cons, List.map_nil, h0, h1]
  unfold snapCut window
  norm_num

end AICover
